import Mathlib

/-!
Shallow embedding of workpathco/ssm-loader (src/ssm-loader.go, fuller variant)
and theorems about its parameter-resolution pipeline.
-/

set_option maxRecDepth 4000

namespace SSMLoader

/-- A parameter record from the remote store (ssm.Parameter: Name, Value). -/
structure Parameter where
  name : String
  value : String
deriving DecidableEq, Repr

/-- A flat namespace, Go's `paramMap = map[string]string`, modelled as an
association list; lookup returns the first binding for a key. -/
abbrev paramMap := List (String × String)

/-- Map lookup (`v, exists := m[k]`). -/
def pmLookup : paramMap → String → Option String
  | [], _ => none
  | (k, v) :: rest, key => if k = key then some v else pmLookup rest key

/-- Map assignment (`m[k] = v`): replace the first binding of `k`, or append. -/
def setVal : paramMap → String → String → paramMap
  | [], k, v => [(k, v)]
  | (k', v') :: rest, k, v =>
    if k' = k then (k, v) :: rest else (k', v') :: setVal rest k v

/-- Split a string at its FIRST `=` (Go `strings.SplitN(e, "=", 2)`):
returns the part before and after when `=` occurs, `none` otherwise. -/
def splitEq : List Char → Option (List Char × List Char)
  | [] => none
  | c :: cs =>
    if c = '=' then some ([], cs)
    else (splitEq cs).map (fun p => (c :: p.1, p.2))

/-- `pair := strings.SplitN(e, "=", 2)` giving `(pair[0], pair[1])`.
When the entry has no `=`, Go would panic indexing `pair[1]`; real
`os.Environ` entries always contain `=`, and theorems assume it. -/
def parseEnvEntry (e : String) : String × String :=
  match splitEq e.data with
  | some (n, v) => (String.mk n, String.mk v)
  | none => (e, "")

/-- `getOSEnv`: seed a map from the environ entries, splitting each at the
first `=` (Go map assignment: a repeated name keeps the later entry). -/
def getOSEnv (environ : List String) : paramMap :=
  environ.foldl (fun m e => setVal m (parseEnvEntry e).1 (parseEnvEntry e).2) []

/-- `os.Getenv`: value of the first environ entry (containing `=`) whose
name part matches, or `""` when unset. -/
def osGetenv (environ : List String) (key : String) : String :=
  match environ.find? (fun e => (splitEq e.data).isSome && (parseEnvEntry e).1 == key) with
  | some e => (parseEnvEntry e).2
  | none => ""

/-- `strings.Split` for a one-character separator: split at every
occurrence, keeping empty fields. -/
def splitOnChar (sep : Char) : List Char → List (List Char)
  | [] => [[]]
  | c :: cs =>
    if c = sep then [] :: splitOnChar sep cs
    else
      match splitOnChar sep cs with
      | [] => [[c]]
      | h :: t => (c :: h) :: t

/-- The final `/`-delimited segment of a hierarchical name
(`ss := strings.Split(name, "/"); ss[len(ss)-1]`). -/
def bareName (n : String) : String := String.mk ((splitOnChar '/' n.data).getLastD [])

/-- `paramMap.AddParams`: merge a batch, first-write-wins
(insert the bare name only when not already present). -/
def AddParams (m : paramMap) (ps : List Parameter) : paramMap :=
  ps.foldl
    (fun m p =>
      let nm := bareName p.name
      if (pmLookup m nm).isSome then m else m ++ [(nm, p.value)])
    m

/-- `strings.Trim(s, "%")`: drop every leading and trailing `%`. -/
def trimPct (cs : List Char) : List Char :=
  ((cs.dropWhile (fun c => c = '%')).reverse.dropWhile (fun c => c = '%')).reverse

/-- Greedy close for the regex `%%(.*)%%`: given the text after an opening
`%%`, return the longest newline-free capture followed by `%%`, with the
remainder after that closing `%%`. -/
def closeG : List Char → Option (List Char × List Char)
  | [] => none
  | c :: cs =>
    if c = '\n' then none
    else
      match closeG cs with
      | some (cap, rest) => some (c :: cap, rest)
      | none =>
        match c, cs with
        | '%', '%' :: rest => some ([], rest)
        | _, _ => none

/-- `regexp.ReplaceAllStringFunc` for the pattern `%%(.*)%%`: leftmost
match, greedy capture, replacement text not rescanned. Structured with a
fuel argument (one unit per scanned position) for totality; fuel at least
the list length never runs out. -/
def replaceScanF (f : List Char → List Char) : Nat → List Char → List Char
  | 0, cs => cs
  | _, [] => []
  | fuel + 1, c :: cs =>
    match c, cs with
    | '%', '%' :: cs2 =>
      match closeG cs2 with
      | some (cap, rest) =>
          f ('%' :: '%' :: (cap ++ ['%', '%'])) ++ replaceScanF f fuel rest
      | none => c :: replaceScanF f fuel cs
    | _, _ => c :: replaceScanF f fuel cs

/-- The replacement callback: trim the `%` delimiters, look the name up in
the namespace, empty string when absent. -/
def replToken (m : paramMap) (s : List Char) : List Char :=
  match pmLookup m (String.mk (trimPct s)) with
  | some r => r.data
  | none => []

/-- One value rewritten by `paramInterpolation.ReplaceAllStringFunc`. -/
def ReplaceValue (m : paramMap) (v : String) : String :=
  String.mk (replaceScanF (replToken m) v.data.length v.data)

/-- `paramMap.ReplaceInterpolations`: one pass over the keys in the given
iteration order (Go map range order is unspecified); each key's value is
rewritten reading the namespace as it currently stands and written back. -/
def ReplaceInterpolations (order : List String) (m : paramMap) : paramMap :=
  order.foldl
    (fun acc k =>
      match pmLookup acc k with
      | some v => setVal acc k (ReplaceValue acc v)
      | none => acc)
    m

/-- `paramMap.StringArray`: flatten to `NAME=VALUE` strings. -/
def StringArray (m : paramMap) : List String :=
  m.map (fun p => p.1 ++ "=" ++ p.2)

/-- One remote-store response (`ssm.GetParametersByPathOutput`):
the page's parameters and an optional continuation token. -/
structure PageResponse where
  parameters : List Parameter
  nextToken : Option String
deriving DecidableEq, Repr

/-- The remote store as the finite sequence of responses it serves to
successive `GetParametersByPath` requests; a response may be an error. -/
abbrev Store := List (Except String PageResponse)

/-- Result of `getParameters`, instrumented with the number of
`GetParametersByPath` requests made and `time.Sleep(100ms)` calls done
(ghost counters; the sleep precedes every request). -/
instance exceptDecEq {ε α : Type} [DecidableEq ε] [DecidableEq α] : DecidableEq (Except ε α)
  | .ok a, .ok b =>
    if h : a = b then isTrue (by rw [h]) else isFalse (by intro hc; cases hc; exact h rfl)
  | .error a, .error b =>
    if h : a = b then isTrue (by rw [h]) else isFalse (by intro hc; cases hc; exact h rfl)
  | .ok _, .error _ => isFalse (by intro hc; cases hc)
  | .error _, .ok _ => isFalse (by intro hc; cases hc)

structure FetchOutcome where
  result : Except String (List Parameter)
  requests : Nat
  sleeps : Nat
deriving DecidableEq, Repr

/-- `getParameters`: stop when `itr != 0 && NextToken == nil`; otherwise
sleep 100ms, issue the next request, fail on error returning nil
parameters, else recurse with the response's token, appending its
parameters. The `[]` case (store out of responses) is a modelling
artifact never reached for a well-formed finite store. -/
def getParameters (store : Store) (tok : Option String) (fetched : List Parameter)
    (itr reqs slps : Nat) : FetchOutcome :=
  if itr ≠ 0 ∧ tok = none then ⟨.ok fetched, reqs, slps⟩
  else
    match store with
    | [] => ⟨.error "", reqs + 1, slps + 1⟩
    | .error e :: _ => ⟨.error e, reqs + 1, slps + 1⟩
    | .ok page :: rest =>
        getParameters rest page.nextToken (fetched ++ page.parameters)
          (itr + 1) (reqs + 1) (slps + 1)

/-- A finite page sequence: nonempty, every page but the last carries a
continuation token, the last carries none. -/
def wfPages : List PageResponse → Bool
  | [] => false
  | [p] => p.nextToken.isNone
  | p :: q :: rest => p.nextToken.isSome && wfPages (q :: rest)

/-- A store that serves a finite page sequence without errors. -/
def okStore (s : Store) : Prop :=
  ∃ pages, s = pages.map Except.ok ∧ wfPages pages = true

/-- Observable outcome of `main` (fuller variant of src/ssm-loader.go). -/
inductive MainOutcome where
  | fatalSharedFetch (msg : String)
  | fatalAppFetch (msg : String)
  | usageExit
  | outputExit (lines : List String)
  | execChild (cmd : String) (cmdArgs : List String) (env : List String)
deriving DecidableEq, Repr

/-- Result of `main`, with ghost request counters per scope. -/
structure MainResult where
  outcome : MainOutcome
  sharedReqs : Nat
  appReqs : Nat
deriving DecidableEq, Repr

/-- Exit status determined by the outcome (`log.Fatalln` exits 1, the
usage and `-O` paths call `os.Exit(0)`; `execChild` propagates the
child's status, outside this model). -/
def exitCode : MainOutcome → Option Nat
  | .fatalSharedFetch _ => some 1
  | .fatalAppFetch _ => some 1
  | .usageExit => some 0
  | .outputExit _ => some 0
  | .execChild _ _ _ => none

/-- `APP_ENV`, falling back to `WORKPATH_ENV` when unset. -/
def resolveAppEnv (environ : List String) : String :=
  if osGetenv environ "APP_ENV" = "" then osGetenv environ "WORKPATH_ENV"
  else osGetenv environ "APP_ENV"

/-- One scope's fetch: run the paginated fetch from a fresh state when the
scope is configured, otherwise the scope is never queried (empty batch). -/
def fetchScope (svc : String → Store) (path : String) (enabled : Bool) : FetchOutcome :=
  if enabled then getParameters (svc path) none [] 0 0 0 else ⟨.ok [], 0, 0⟩

/-- The trailing-argument handling of `main` (fuller variant): usage (exit
0) on no arguments or `-h`/`--help`; `-O` prints the flattened namespace
(exit 0); otherwise run the first argument as the command with the
flattened namespace as its environment. -/
def argsDispatch (args : List String) (envArr : List String) (s a : Nat) : MainResult :=
  match args with
  | [] => ⟨.usageExit, s, a⟩
  | c :: rest =>
    if (c :: rest).contains "-h" || (c :: rest).contains "--help" then
      ⟨.usageExit, s, a⟩
    else if (c :: rest).contains "-O" then
      ⟨.outputExit envArr, s, a⟩
    else
      ⟨.execChild c rest envArr, s, a⟩

/-- `main` of the fuller variant: read APP_NAME and APP_ENV (falling back
to WORKPATH_ENV), seed the namespace from the environ, fetch the shared
scope then the app scope (each only when its name is nonempty, each
fatal on error), merge, interpolate (iteration order modelled as key
insertion order; Go leaves it unspecified), then handle the arguments. -/
def mainFull (environ : List String) (svc : String → Store) (args : List String) : MainResult :=
  let appName := osGetenv environ "APP_NAME"
  let appEnv := resolveAppEnv environ
  let m0 := getOSEnv environ
  let sharedF := fetchScope svc ("/" ++ appEnv ++ "/") (appEnv != "")
  match sharedF.result with
  | .error e => ⟨.fatalSharedFetch ("Error fetching shared params:  " ++ e), sharedF.requests, 0⟩
  | .ok sharedParams =>
    let appF := fetchScope svc ("/" ++ appEnv ++ "/" ++ appName ++ "/") (appName != "")
    match appF.result with
    | .error e =>
        ⟨.fatalAppFetch ("Error fetching app params:  " ++ e), sharedF.requests, appF.requests⟩
    | .ok appParams =>
      let m1 := AddParams m0 (sharedParams ++ appParams)
      let m2 := ReplaceInterpolations (m1.map Prod.fst) m1
      argsDispatch args (StringArray m2) sharedF.requests appF.requests

end SSMLoader

namespace SSMLoader

/-! Lemmas about map lookup and assignment. -/

theorem pmLookup_setVal_self (m : paramMap) (k v : String) :
    pmLookup (setVal m k v) k = some v := by
  induction m with
  | nil => simp [setVal, pmLookup]
  | cons p rest ih =>
    obtain ⟨k', v'⟩ := p
    by_cases h : k' = k
    · simp [setVal, h, pmLookup]
    · simp [setVal, h, pmLookup, ih]

theorem pmLookup_setVal_ne (m : paramMap) (k v j : String) (h : k ≠ j) :
    pmLookup (setVal m k v) j = pmLookup m j := by
  induction m with
  | nil => simp [setVal, pmLookup, h]
  | cons p rest ih =>
    obtain ⟨k', v'⟩ := p
    by_cases hk : k' = k
    · subst hk
      simp [setVal, pmLookup, h, ih]
    · simp [setVal, hk, pmLookup, ih]

theorem pmLookup_append_some (m m' : paramMap) (k v : String)
    (h : pmLookup m k = some v) : pmLookup (m ++ m') k = some v := by
  induction m with
  | nil => simp [pmLookup] at h
  | cons p rest ih =>
    obtain ⟨k', v'⟩ := p
    by_cases hk : k' = k
    · simp_all [pmLookup]
    · simp_all [pmLookup]

theorem pmLookup_append_none (m m' : paramMap) (k : String)
    (h : pmLookup m k = none) : pmLookup (m ++ m') k = pmLookup m' k := by
  induction m with
  | nil => simp [pmLookup]
  | cons p rest ih =>
    obtain ⟨k', v'⟩ := p
    by_cases hk : k' = k
    · simp_all [pmLookup]
    · simp_all [pmLookup]

theorem setVal_eq_append (m : paramMap) (k v : String)
    (h : pmLookup m k = none) : setVal m k v = m ++ [(k, v)] := by
  induction m with
  | nil => simp [setVal]
  | cons p rest ih =>
    obtain ⟨k', v'⟩ := p
    by_cases hk : k' = k
    · simp [pmLookup, hk] at h
    · simp_all [setVal, pmLookup, hk]

/-! Lemmas about the first-write-wins merge. -/

theorem AddParams_nil (m : paramMap) : AddParams m [] = m := rfl

theorem AddParams_cons (m : paramMap) (p : Parameter) (ps : List Parameter) :
    AddParams m (p :: ps) =
      AddParams
        (if (pmLookup m (bareName p.name)).isSome then m
         else m ++ [(bareName p.name, p.value)]) ps := rfl

theorem AddParams_append (m : paramMap) (a b : List Parameter) :
    AddParams m (a ++ b) = AddParams (AddParams m a) b := by
  simp [AddParams, List.foldl_append]

theorem AddParams_preserves (m : paramMap) (ps : List Parameter) (k : String) (v : String)
    (h : pmLookup m k = some v) : pmLookup (AddParams m ps) k = some v := by
  induction ps generalizing m with
  | nil => simpa [AddParams_nil] using h
  | cons p ps ih =>
    rw [AddParams_cons]
    by_cases hp : (pmLookup m (bareName p.name)).isSome
    · simp only [hp, if_true]
      exact ih m h
    · simp only [hp, if_false]
      exact ih _ (pmLookup_append_some m _ k v h)

theorem AddParams_none (m : paramMap) (ps : List Parameter) (k : String)
    (hps : ∀ q ∈ ps, bareName q.name ≠ k) (h : pmLookup m k = none) :
    pmLookup (AddParams m ps) k = none := by
  induction ps generalizing m with
  | nil => simpa [AddParams_nil] using h
  | cons p ps ih =>
    rw [AddParams_cons]
    have hp := hps p (by simp)
    have hrest : ∀ q ∈ ps, bareName q.name ≠ k := fun q hq => hps q (by simp [hq])
    by_cases hm : (pmLookup m (bareName p.name)).isSome
    · simp only [hm, if_true]
      exact ih m hrest h
    · rw [if_neg (by simp [hm])]
      refine ih _ hrest ?_
      rw [pmLookup_append_none m _ k h]
      simp [pmLookup, hp]

/-! Lemmas about the paginated fetcher. -/

theorem getParameters_stop (store : Store) (fetched : List Parameter) (itr reqs slps : Nat)
    (h : itr ≠ 0) :
    getParameters store none fetched itr reqs slps = ⟨.ok fetched, reqs, slps⟩ := by
  rw [getParameters.eq_def]
  rw [if_pos ⟨h, rfl⟩]

theorem getParameters_cons_ok (page : PageResponse) (rest : Store) (tok : Option String)
    (fetched : List Parameter) (itr reqs slps : Nat) (h : itr = 0 ∨ tok ≠ none) :
    getParameters (.ok page :: rest) tok fetched itr reqs slps =
      getParameters rest page.nextToken (fetched ++ page.parameters)
        (itr + 1) (reqs + 1) (slps + 1) := by
  rw [getParameters.eq_def]
  rw [if_neg (by rcases h with h | h <;> simp [h])]

theorem getParameters_cons_err (e : String) (rest : Store) (tok : Option String)
    (fetched : List Parameter) (itr reqs slps : Nat) (h : itr = 0 ∨ tok ≠ none) :
    getParameters (.error e :: rest) tok fetched itr reqs slps =
      ⟨.error e, reqs + 1, slps + 1⟩ := by
  rw [getParameters.eq_def]
  rw [if_neg (by rcases h with h | h <;> simp [h])]

theorem getParameters_run (pages : List PageResponse) (h : wfPages pages = true) :
    ∀ (tok : Option String) (fetched : List Parameter) (itr reqs slps : Nat),
      (itr = 0 ∨ tok ≠ none) →
      getParameters (pages.map Except.ok) tok fetched itr reqs slps =
        ⟨.ok (fetched ++ (pages.map PageResponse.parameters).flatten),
          reqs + pages.length, slps + pages.length⟩ := by
  induction pages with
  | nil => simp [wfPages] at h
  | cons p ps ih =>
    intro tok fetched itr reqs slps hguard
    rw [List.map_cons, getParameters_cons_ok _ _ _ _ _ _ _ hguard]
    cases ps with
    | nil =>
      have hnone : p.nextToken = none := by
        simpa [wfPages, Option.isNone_iff_eq_none] using h
      rw [hnone, getParameters_stop _ _ _ _ _ (Nat.succ_ne_zero itr)]
      simp
    | cons q qs =>
      have hsome : p.nextToken ≠ none := by
        simp only [wfPages, Bool.and_eq_true] at h
        simpa [Option.isSome_iff_ne_none] using h.1
      have hwf : wfPages (q :: qs) = true := by
        simp only [wfPages, Bool.and_eq_true] at h
        exact h.2
      rw [ih hwf p.nextToken _ _ _ _ (Or.inr hsome)]
      simp [List.append_assoc, Nat.add_assoc, Nat.add_comm, Nat.add_left_comm]

theorem getParameters_error (pages : List PageResponse)
    (hps : ∀ p ∈ pages, p.nextToken ≠ none) (e : String) (tail : Store) :
    ∀ (tok : Option String) (fetched : List Parameter) (itr reqs slps : Nat),
      (itr = 0 ∨ tok ≠ none) →
      getParameters (pages.map Except.ok ++ Except.error e :: tail) tok fetched itr reqs slps =
        ⟨.error e, reqs + pages.length + 1, slps + pages.length + 1⟩ := by
  induction pages with
  | nil =>
    intro tok fetched itr reqs slps hguard
    rw [List.map_nil, List.nil_append, getParameters_cons_err _ _ _ _ _ _ _ hguard]
    simp
  | cons p ps ih =>
    intro tok fetched itr reqs slps hguard
    rw [List.map_cons, List.cons_append, getParameters_cons_ok _ _ _ _ _ _ _ hguard]
    have hp := hps p (by simp)
    have hrest : ∀ q ∈ ps, q.nextToken ≠ none := fun q hq => hps q (by simp [hq])
    rw [ih hrest p.nextToken _ _ _ _ (Or.inr hp)]
    simp [Nat.add_assoc, Nat.add_comm, Nat.add_left_comm]

theorem fetch_okStore (s : Store) (hok : okStore s) :
    ∃ (ps : List Parameter) (n : Nat),
      getParameters s none [] 0 0 0 = ⟨.ok ps, n, n⟩ := by
  obtain ⟨pages, rfl, hwf⟩ := hok
  exact ⟨_, _, getParameters_run pages hwf none [] 0 0 0 (Or.inl rfl)⟩

theorem fetchScope_disabled (svc : String → Store) (path : String) :
    fetchScope svc path false = ⟨.ok [], 0, 0⟩ := rfl

theorem fetchScope_ok (svc : String → Store) (path : String) (b : Bool)
    (hok : okStore (svc path)) :
    ∃ (ps : List Parameter) (n : Nat),
      fetchScope svc path b = ⟨.ok ps, n, n⟩ ∧ (b = false → n = 0) := by
  cases b with
  | false => exact ⟨[], 0, rfl, fun _ => rfl⟩
  | true =>
    obtain ⟨ps, n, heq⟩ := fetch_okStore (svc path) hok
    exact ⟨ps, n, by simpa [fetchScope] using heq, fun hc => by cases hc⟩

/-! Lemmas about the interpolation resolver. -/

theorem mk_data (s : String) : String.mk s.data = s := rfl

theorem ReplaceValue_FOO (m : paramMap) :
    ReplaceValue m "%%FOO%%" = (pmLookup m "FOO").getD "" := by
  show String.mk
      ((match pmLookup m "FOO" with
        | some r => r.data
        | none => []) ++ []) = (pmLookup m "FOO").getD ""
  cases hl : pmLookup m "FOO" with
  | none => rfl
  | some r => simp [mk_data]

theorem ReplaceValue_A (m : paramMap) :
    ReplaceValue m "%%A%%" = (pmLookup m "A").getD "" := by
  show String.mk
      ((match pmLookup m "A" with
        | some r => r.data
        | none => []) ++ []) = (pmLookup m "A").getD ""
  cases hl : pmLookup m "A" with
  | none => rfl
  | some r => simp [mk_data]

theorem ReplaceInterpolations_nil (m : paramMap) : ReplaceInterpolations [] m = m := rfl

theorem ReplaceInterpolations_cons (k : String) (order : List String) (m : paramMap) :
    ReplaceInterpolations (k :: order) m =
      ReplaceInterpolations order
        (match pmLookup m k with
         | some v => setVal m k (ReplaceValue m v)
         | none => m) := rfl

theorem selfref_invariant (order : List String) :
    ∀ m : paramMap, pmLookup m "FOO" = some "%%FOO%%" →
      pmLookup (ReplaceInterpolations order m) "FOO" = some "%%FOO%%" := by
  induction order with
  | nil =>
    intro m h
    simpa [ReplaceInterpolations_nil] using h
  | cons k order ih =>
    intro m h
    rw [ReplaceInterpolations_cons]
    apply ih
    by_cases hk : k = "FOO"
    · subst hk
      rw [h]
      rw [pmLookup_setVal_self]
      rw [ReplaceValue_FOO, h]
      rfl
    · cases hl : pmLookup m k with
      | none => exact h
      | some v =>
        show pmLookup (setVal m k (ReplaceValue m v)) "FOO" = some "%%FOO%%"
        rw [pmLookup_setVal_ne _ _ _ _ hk]
        exact h

/-! Lemmas about the invocation driver. -/

theorem argsDispatch_nil (envArr : List String) (s a : Nat) :
    argsDispatch [] envArr s a = ⟨.usageExit, s, a⟩ := rfl

theorem argsDispatch_help (args : List String) (envArr : List String) (s a : Nat)
    (h : args.contains "-h" = true ∨ args.contains "--help" = true) :
    argsDispatch args envArr s a = ⟨.usageExit, s, a⟩ := by
  cases args with
  | nil => rfl
  | cons c rest =>
    have h' : ("-h" ∈ c :: rest) ∨ ("--help" ∈ c :: rest) := by
      rcases h with h | h
      · exact Or.inl (by simpa using h)
      · exact Or.inr (by simpa using h)
    rcases h' with h' | h'
    · rcases List.mem_cons.mp h' with h2 | h2
      · subst h2
        simp [argsDispatch]
      · simp [argsDispatch, h2]
    · rcases List.mem_cons.mp h' with h2 | h2
      · subst h2
        simp [argsDispatch]
      · simp [argsDispatch, h2]

theorem mainFull_ok (environ : List String) (svc : String → Store)
    (hs : ∀ p, okStore (svc p)) :
    ∃ (envArr : List String) (s a : Nat),
      (∀ args, mainFull environ svc args = argsDispatch args envArr s a) ∧
      (resolveAppEnv environ = "" → s = 0) ∧
      (osGetenv environ "APP_NAME" = "" → a = 0) := by
  obtain ⟨ps1, n1, h1, h1z⟩ :=
    fetchScope_ok svc ("/" ++ resolveAppEnv environ ++ "/") (resolveAppEnv environ != "") (hs _)
  obtain ⟨ps2, n2, h2, h2z⟩ :=
    fetchScope_ok svc
      ("/" ++ resolveAppEnv environ ++ "/" ++ osGetenv environ "APP_NAME" ++ "/")
      (osGetenv environ "APP_NAME" != "") (hs _)
  refine ⟨StringArray
      (ReplaceInterpolations
        ((AddParams (getOSEnv environ) (ps1 ++ ps2)).map Prod.fst)
        (AddParams (getOSEnv environ) (ps1 ++ ps2))), n1, n2, ?_, ?_, ?_⟩
  · intro args
    simp only [mainFull]
    rw [h1, h2]
  · intro hz
    exact h1z (by simp [hz])
  · intro hz
    exact h2z (by simp [hz])

theorem mainFull_sharedError (environ : List String) (svc : String → Store)
    (args : List String) (e : String)
    (hEnv : resolveAppEnv environ ≠ "")
    (herr : (getParameters (svc ("/" ++ resolveAppEnv environ ++ "/")) none [] 0 0 0).result
      = .error e) :
    mainFull environ svc args =
      ⟨.fatalSharedFetch ("Error fetching shared params:  " ++ e),
        (getParameters (svc ("/" ++ resolveAppEnv environ ++ "/")) none [] 0 0 0).requests, 0⟩ := by
  simp only [mainFull, fetchScope]
  rw [if_pos (by simp [hEnv])]
  rw [herr]

theorem mainFull_appError (environ : List String) (svc : String → Store)
    (args : List String) (e : String) (ps : List Parameter)
    (hName : osGetenv environ "APP_NAME" ≠ "")
    (hsh : (fetchScope svc ("/" ++ resolveAppEnv environ ++ "/")
        (resolveAppEnv environ != "")).result = Except.ok ps)
    (herr : (getParameters
        (svc ("/" ++ resolveAppEnv environ ++ "/" ++ osGetenv environ "APP_NAME" ++ "/"))
        none [] 0 0 0).result = .error e) :
    (mainFull environ svc args).outcome =
      .fatalAppFetch ("Error fetching app params:  " ++ e) := by
  simp only [mainFull]
  rw [hsh]
  simp only [fetchScope]
  rw [if_pos (by simp [hName])]
  rw [herr]

/-! Lemmas about environment seeding and flattening. -/

theorem splitEq_of_append (n v : List Char) (h : '=' ∉ n) :
    splitEq (n ++ '=' :: v) = some (n, v) := by
  induction n with
  | nil => simp [splitEq]
  | cons c cs ih =>
    have hc : c ≠ '=' := fun hc => h (hc ▸ List.mem_cons_self c cs)
    have hcs : '=' ∉ cs := fun hm => h (List.mem_cons_of_mem c hm)
    simp [splitEq, hc, ih hcs]

theorem splitEq_decomp (cs : List Char) :
    ∀ n v, splitEq cs = some (n, v) → cs = n ++ '=' :: v := by
  induction cs with
  | nil => intro n v h; simp [splitEq] at h
  | cons c cs ih =>
    intro n v h
    by_cases hc : c = '='
    · simp [splitEq, hc] at h
      obtain ⟨hn, hv⟩ := h
      simp [← hn, ← hv, hc]
    · simp only [splitEq, if_neg hc] at h
      cases hs : splitEq cs with
      | none => rw [hs] at h; simp at h
      | some p =>
        obtain ⟨n', v'⟩ := p
        rw [hs] at h
        have h3 : (c :: n', v') = (n, v) := Option.some.inj h
        have hn : c :: n' = n := congrArg Prod.fst h3
        have hv : v' = v := congrArg Prod.snd h3
        have := ih n' v' hs
        simp [← hn, ← hv, this]

theorem parse_unparse (e : String) (h : (splitEq e.data).isSome = true) :
    (parseEnvEntry e).1 ++ "=" ++ (parseEnvEntry e).2 = e := by
  obtain ⟨⟨n, v⟩, hs⟩ := Option.isSome_iff_exists.mp h
  have hd := splitEq_decomp e.data n v hs
  unfold parseEnvEntry
  rw [hs]
  have happ : String.mk n ++ "=" ++ String.mk v = String.mk ((n ++ ['=']) ++ v) := rfl
  rw [happ, List.append_assoc, List.singleton_append, ← hd, mk_data]

theorem getOSEnv_fresh (environ : List String) :
    ∀ acc : paramMap,
      (∀ e ∈ environ, pmLookup acc (parseEnvEntry e).1 = none) →
      (environ.map (fun e => (parseEnvEntry e).1)).Nodup →
      environ.foldl (fun m e => setVal m (parseEnvEntry e).1 (parseEnvEntry e).2) acc
        = acc ++ environ.map parseEnvEntry := by
  induction environ with
  | nil => intro acc _ _; simp
  | cons e es ih =>
    intro acc hfresh hnodup
    simp only [List.foldl_cons]
    rw [setVal_eq_append _ _ _ (hfresh e (by simp))]
    have hcons : ((parseEnvEntry e).1 ∉ es.map (fun x => (parseEnvEntry x).1)) ∧
        (es.map (fun x => (parseEnvEntry x).1)).Nodup := by
      rw [List.map_cons] at hnodup
      exact List.nodup_cons.mp hnodup
    have hhead := hcons.1
    have hfresh' : ∀ x ∈ es, pmLookup (acc ++ [((parseEnvEntry e).1, (parseEnvEntry e).2)]) (parseEnvEntry x).1 = none := by
      intro x hx
      rw [pmLookup_append_none _ _ _ (hfresh x (by simp [hx]))]
      have hne : (parseEnvEntry e).1 ≠ (parseEnvEntry x).1 := by
        intro hq
        exact hhead (hq ▸ List.mem_map_of_mem (fun y => (parseEnvEntry y).1) hx)
      simp [pmLookup, hne]
    rw [ih _ hfresh' hcons.2]
    simp

theorem getOSEnv_eq_map (environ : List String)
    (hnodup : (environ.map (fun e => (parseEnvEntry e).1)).Nodup) :
    getOSEnv environ = environ.map parseEnvEntry := by
  have := getOSEnv_fresh environ [] (fun e _ => rfl) hnodup
  simpa [getOSEnv] using this

theorem StringArray_getOSEnv (environ : List String)
    (hsplit : ∀ e ∈ environ, (splitEq e.data).isSome = true)
    (hnodup : (environ.map (fun e => (parseEnvEntry e).1)).Nodup) :
    StringArray (getOSEnv environ) = environ := by
  rw [getOSEnv_eq_map environ hnodup]
  unfold StringArray
  rw [List.map_map]
  have : ∀ e ∈ environ,
      ((fun p => p.1 ++ "=" ++ p.2) ∘ parseEnvEntry) e = id e := by
    intro e he
    exact parse_unparse e (hsplit e he)
  rw [List.map_congr_left this, List.map_id]

/-! Claim theorems. -/

/-- C1, counterexample: with `A = 1` and `B = 2` in the namespace, the value
`prefix-%%A%%-%%B%%` does NOT resolve to `prefix-1-2`; it resolves to
`prefix-` because the regular expression `%%(.*)%%` captures greedily. -/
theorem C1_greedy_counterexample :
    ReplaceValue [("A", "1"), ("B", "2")] "prefix-%%A%%-%%B%%" ≠ "prefix-1-2" ∧
    ReplaceValue [("A", "1"), ("B", "2")] "prefix-%%A%%-%%B%%" = "prefix-" := by
  constructor
  · decide
  · decide

/-- C1, amended: the capture of `%%(.*)%%` is greedy, not non-greedy: in
`prefix-%%A%%-%%B%%` the single match spans from the first `%%` to the
last, so the looked-up name is `A%%-%%B`; in every namespace where `A`
maps to `1`, `B` maps to `2`, and `A%%-%%B` is not a key, the value
resolves to `prefix-`. -/
theorem C1_greedy_interpolation (m : paramMap)
    (h1 : pmLookup m "A" = some "1") (h2 : pmLookup m "B" = some "2")
    (h3 : pmLookup m "A%%-%%B" = none) :
    ReplaceValue m "prefix-%%A%%-%%B%%" = "prefix-" := by
  show String.mk
      (['p', 'r', 'e', 'f', 'i', 'x', '-'] ++
        ((match pmLookup m "A%%-%%B" with
          | some r => r.data
          | none => []) ++ [])) = "prefix-"
  rw [h3]
  rfl

/-- C1, witness: the amended statement at the concrete namespace
`A = 1, B = 2`. -/
theorem C1_greedy_interpolation_witness :
    pmLookup [("A", "1"), ("B", "2")] "A" = some "1" ∧
    pmLookup [("A", "1"), ("B", "2")] "B" = some "2" ∧
    pmLookup [("A", "1"), ("B", "2")] "A%%-%%B" = none ∧
    ReplaceValue [("A", "1"), ("B", "2")] "prefix-%%A%%-%%B%%" = "prefix-" :=
  ⟨by decide, by decide, by decide,
    C1_greedy_interpolation [("A", "1"), ("B", "2")] (by decide) (by decide) (by decide)⟩

/-- C2, counterexample: with `APP_ENV=prod` set and a one-page store, an
invocation with zero trailing arguments makes one shared-scope request
(the fetch collaborator IS invoked, before the argument check) and then
exits through the usage path with status 0, not non-zero. -/
theorem C2_fetch_before_usage_counterexample :
    mainFull ["APP_ENV=prod"] (fun _ => [.ok ⟨[], none⟩]) [] = ⟨.usageExit, 1, 0⟩ ∧
    exitCode .usageExit = some 0 := by
  constructor
  · decide
  · rfl

/-- C2, amended: with zero trailing arguments (and well-formed stores) the
process prints the usage text and exits with status 0, not non-zero; the
check happens after the fetch stage, so no fetch occurs only when neither
an environment name (APP_ENV/WORKPATH_ENV) nor APP_NAME is configured. -/
theorem C2_no_args_usage (environ : List String) (svc : String → Store)
    (hs : ∀ p, okStore (svc p)) :
    (mainFull environ svc []).outcome = .usageExit ∧
    exitCode (mainFull environ svc []).outcome = some 0 ∧
    (resolveAppEnv environ = "" → osGetenv environ "APP_NAME" = "" →
      (mainFull environ svc []).sharedReqs = 0 ∧ (mainFull environ svc []).appReqs = 0) := by
  obtain ⟨envArr, s, a, hd, hs0, ha0⟩ := mainFull_ok environ svc hs
  rw [hd []]
  exact ⟨rfl, rfl, fun h1 h2 => ⟨hs0 h1, ha0 h2⟩⟩

/-- C2, witness: the amended statement at `APP_ENV=prod`, a one-page store
and no arguments. -/
theorem C2_no_args_usage_witness :
    (mainFull ["APP_ENV=prod"] (fun _ => [.ok ⟨[], none⟩]) []).outcome = .usageExit ∧
    exitCode (mainFull ["APP_ENV=prod"] (fun _ => [.ok ⟨[], none⟩]) []).outcome = some 0 ∧
    (resolveAppEnv ["APP_ENV=prod"] = "" → osGetenv ["APP_ENV=prod"] "APP_NAME" = "" →
      (mainFull ["APP_ENV=prod"] (fun _ => [.ok ⟨[], none⟩]) []).sharedReqs = 0 ∧
      (mainFull ["APP_ENV=prod"] (fun _ => [.ok ⟨[], none⟩]) []).appReqs = 0) :=
  C2_no_args_usage ["APP_ENV=prod"] (fun _ => [.ok ⟨[], none⟩])
    (fun _ => ⟨[⟨[], none⟩], rfl, rfl⟩)

/-- C3: merging a batch never changes a key already present, and in the
pipeline (seed from OS environment, merge shared batch then app batch)
every key present after seeding keeps its seeded value. -/
theorem C3_merge_preserves :
    (∀ (m : paramMap) (B : List Parameter) (k v : String),
      pmLookup m k = some v → pmLookup (AddParams m B) k = some v) ∧
    (∀ (environ : List String) (shared app : List Parameter) (k v : String),
      pmLookup (getOSEnv environ) k = some v →
      pmLookup (AddParams (AddParams (getOSEnv environ) shared) app) k = some v) := by
  constructor
  · exact fun m B k v h => AddParams_preserves m B k v h
  · intro environ shared app k v h
    exact AddParams_preserves _ app k v (AddParams_preserves _ shared k v h)

/-- C3, witness: `FOO=local` from the OS environment survives a shared
batch `/e/FOO=remote` and an app batch `/e/a/FOO=app`. -/
theorem C3_merge_preserves_witness :
    pmLookup (AddParams [("FOO", "local")] [⟨"/e/FOO", "remote"⟩]) "FOO" = some "local" ∧
    pmLookup
      (AddParams (AddParams (getOSEnv ["FOO=local"]) [⟨"/e/FOO", "remote"⟩]) [⟨"/e/a/FOO", "app"⟩])
      "FOO" = some "local" :=
  ⟨C3_merge_preserves.1 [("FOO", "local")] [⟨"/e/FOO", "remote"⟩] "FOO" "local" (by decide),
    C3_merge_preserves.2 ["FOO=local"] [⟨"/e/FOO", "remote"⟩] [⟨"/e/a/FOO", "app"⟩] "FOO" "local"
      (by decide)⟩

/-- C4, counterexample: with `APP_ENV=prod` set and a one-page store, the
invocation `-h` does print usage and exit 0, but only after making one
shared-scope request — a remote-store fetch IS performed. -/
theorem C4_help_after_fetch_counterexample :
    mainFull ["APP_ENV=prod"] (fun _ => [.ok ⟨[], none⟩]) ["-h"] = ⟨.usageExit, 1, 0⟩ ∧
    (mainFull ["APP_ENV=prod"] (fun _ => [.ok ⟨[], none⟩]) ["-h"]).sharedReqs ≠ 0 := by
  constructor
  · decide
  · decide

/-- C4, amended: if the arguments contain `-h` or `--help`, usage text is
printed and the process exits with status 0 and launches no child; the
check happens after the fetch stage, so configured fetches are still
performed first. -/
theorem C4_help_usage (environ : List String) (svc : String → Store) (args : List String)
    (hs : ∀ p, okStore (svc p))
    (h : args.contains "-h" = true ∨ args.contains "--help" = true) :
    (mainFull environ svc args).outcome = .usageExit ∧
    exitCode (mainFull environ svc args).outcome = some 0 := by
  obtain ⟨envArr, s, a, hd, _, _⟩ := mainFull_ok environ svc hs
  rw [hd args, argsDispatch_help args envArr s a h]
  exact ⟨rfl, rfl⟩

/-- C4, witness: the amended statement at `APP_ENV=prod`, a one-page store
and arguments `[-h]`. -/
theorem C4_help_usage_witness :
    (mainFull ["APP_ENV=prod"] (fun _ => [.ok ⟨[], none⟩]) ["-h"]).outcome = .usageExit ∧
    exitCode (mainFull ["APP_ENV=prod"] (fun _ => [.ok ⟨[], none⟩]) ["-h"]).outcome = some 0 :=
  C4_help_usage ["APP_ENV=prod"] (fun _ => [.ok ⟨[], none⟩]) ["-h"]
    (fun _ => ⟨[⟨[], none⟩], rfl, rfl⟩) (Or.inl (by decide))

/-- C5: interpolation is a single non-fixpoint pass: a self-referential
value `FOO=%%FOO%%` still maps to its pre-rewrite (original) value after
the pass, for every iteration order — not the empty string — and a
replacement that introduces a new `%%...%%` token is left unexpanded. -/
theorem C5_single_pass :
    (∀ (m : paramMap) (order : List String),
      pmLookup m "FOO" = some "%%FOO%%" →
      pmLookup (ReplaceInterpolations order m) "FOO" = some "%%FOO%%") ∧
    (∀ m : paramMap, pmLookup m "A" = some "%%B%%" →
      ReplaceValue m "%%A%%" = "%%B%%") := by
  constructor
  · exact fun m order h => selfref_invariant order m h
  · intro m h
    rw [ReplaceValue_A, h]
    rfl

/-- C5, witness: the statement at the namespaces `FOO=%%FOO%%` (processed
in order `[FOO]`) and `A=%%B%%`. -/
theorem C5_single_pass_witness :
    pmLookup (ReplaceInterpolations ["FOO"] [("FOO", "%%FOO%%")]) "FOO" = some "%%FOO%%" ∧
    ReplaceValue [("A", "%%B%%")] "%%A%%" = "%%B%%" :=
  ⟨C5_single_pass.1 [("FOO", "%%FOO%%")] ["FOO"] (by decide),
    C5_single_pass.2 [("A", "%%B%%")] (by decide)⟩

/-- C6: for every finite page sequence the fetcher terminates exactly at
the first response with no continuation cursor, returning the
concatenation of all pages in arrival order, with one request and one
100ms pacing sleep per page (the sleep precedes every request, so the
delay is observed between consecutive requests); in particular pages of
sizes 10, 10 and 5 yield 25 parameters after exactly 3 requests. -/
theorem C6_pagination :
    (∀ pages : List PageResponse, wfPages pages = true →
      getParameters (pages.map Except.ok) none [] 0 0 0 =
        ⟨.ok (pages.map PageResponse.parameters).flatten, pages.length, pages.length⟩) ∧
    (∀ (l1 l2 l3 : List Parameter) (c1 c2 : String),
      l1.length = 10 → l2.length = 10 → l3.length = 5 →
      getParameters [.ok ⟨l1, some c1⟩, .ok ⟨l2, some c2⟩, .ok ⟨l3, none⟩] none [] 0 0 0 =
        ⟨.ok (l1 ++ l2 ++ l3), 3, 3⟩ ∧ (l1 ++ l2 ++ l3).length = 25) := by
  constructor
  · intro pages h
    simpa using getParameters_run pages h none [] 0 0 0 (Or.inl rfl)
  · intro l1 l2 l3 c1 c2 h1 h2 h3
    have hwf : wfPages [⟨l1, some c1⟩, ⟨l2, some c2⟩, ⟨l3, none⟩] = true := rfl
    have hrun := getParameters_run [⟨l1, some c1⟩, ⟨l2, some c2⟩, ⟨l3, none⟩] hwf
      none [] 0 0 0 (Or.inl rfl)
    constructor
    · simpa [List.append_assoc] using hrun
    · simp [h1, h2, h3]

/-- C6, witness: the statement at a concrete store of 25 parameters in
pages of sizes 10, 10 and 5. -/
theorem C6_pagination_witness :
    getParameters
      [.ok ⟨List.replicate 10 (⟨"/e/P", "v"⟩ : Parameter), some "t1"⟩,
        .ok ⟨List.replicate 10 (⟨"/e/P", "v"⟩ : Parameter), some "t2"⟩,
        .ok ⟨List.replicate 5 (⟨"/e/P", "v"⟩ : Parameter), none⟩] none [] 0 0 0 =
      ⟨.ok (List.replicate 10 (⟨"/e/P", "v"⟩ : Parameter) ++
        List.replicate 10 (⟨"/e/P", "v"⟩ : Parameter) ++
        List.replicate 5 (⟨"/e/P", "v"⟩ : Parameter)), 3, 3⟩ ∧
    (List.replicate 10 (⟨"/e/P", "v"⟩ : Parameter) ++
      List.replicate 10 (⟨"/e/P", "v"⟩ : Parameter) ++
      List.replicate 5 (⟨"/e/P", "v"⟩ : Parameter)).length = 25 :=
  C6_pagination.2 (List.replicate 10 (⟨"/e/P", "v"⟩ : Parameter))
    (List.replicate 10 (⟨"/e/P", "v"⟩ : Parameter))
    (List.replicate 5 (⟨"/e/P", "v"⟩ : Parameter)) "t1" "t2" (by decide) (by decide) (by decide)

/-- C7: in a batch holding two parameters whose hierarchical names differ
but share the same final segment, merged into a namespace not already
holding that bare name, the bare name ends up mapping to the value of the
first such parameter in arrival order; the later one is skipped. -/
theorem C7_first_wins (m : paramMap) (pre mid post : List Parameter) (p q : Parameter)
    (hsame : bareName q.name = bareName p.name) (hdiff : q.name ≠ p.name)
    (hm : pmLookup m (bareName p.name) = none)
    (hpre : ∀ r ∈ pre, bareName r.name ≠ bareName p.name) :
    pmLookup (AddParams m (pre ++ p :: (mid ++ q :: post))) (bareName p.name)
      = some p.value := by
  rw [AddParams_append]
  have h0 : pmLookup (AddParams m pre) (bareName p.name) = none :=
    AddParams_none m pre _ hpre hm
  rw [AddParams_cons]
  rw [if_neg (by simp [h0])]
  apply AddParams_preserves
  rw [pmLookup_append_none _ _ _ h0]
  simp [pmLookup]

/-- C7, witness: the statement at the batch `[/a/x=1, /b/x=2]` merged into
the empty namespace: `x` maps to `1`. -/
theorem C7_first_wins_witness :
    pmLookup (AddParams [] ([] ++ ⟨"/a/x", "1"⟩ :: ([] ++ ⟨"/b/x", "2"⟩ :: [])))
      (bareName "/a/x") = some "1" :=
  C7_first_wins [] [] [] [] ⟨"/a/x", "1"⟩ ⟨"/b/x", "2"⟩ (by decide) (by decide) (by decide)
    (by simp)

/-- C8: a `%%name%%` token whose name is not a namespace key is replaced
by the empty string: in every namespace without the key `UNDEFINED`, the
value `%%UNDEFINED%%` resolves to `""`. -/
theorem C8_undefined_empty (m : paramMap) (h : pmLookup m "UNDEFINED" = none) :
    ReplaceValue m "%%UNDEFINED%%" = "" := by
  show String.mk
      ((match pmLookup m "UNDEFINED" with
        | some r => r.data
        | none => []) ++ []) = ""
  rw [h]
  rfl

/-- C8, witness: the statement at the namespace `{A: 1}`. -/
theorem C8_undefined_empty_witness :
    pmLookup [("A", "1")] "UNDEFINED" = none ∧
    ReplaceValue [("A", "1")] "%%UNDEFINED%%" = "" :=
  ⟨by decide, C8_undefined_empty [("A", "1")] (by decide)⟩

/-- C9: a failing page fetch makes the fetcher return the error with no
parameters (after exactly one attempt of the failing page beyond the
pacing — no retry), and in `main` a shared-scope failure aborts with the
"shared params" diagnostic and exit status 1 before the app scope is ever
queried, while an app-scope failure aborts with the "app params"
diagnostic and exit status 1; no later stage runs. -/
theorem C9_fetch_error_aborts :
    (∀ (pages : List PageResponse) (e : String) (tail : Store),
      (∀ p ∈ pages, p.nextToken ≠ none) →
      getParameters (pages.map Except.ok ++ Except.error e :: tail) none [] 0 0 0 =
        ⟨.error e, pages.length + 1, pages.length + 1⟩) ∧
    (∀ (environ : List String) (svc : String → Store) (args : List String) (e : String),
      resolveAppEnv environ ≠ "" →
      (getParameters (svc ("/" ++ resolveAppEnv environ ++ "/")) none [] 0 0 0).result
        = .error e →
      (mainFull environ svc args).outcome
        = .fatalSharedFetch ("Error fetching shared params:  " ++ e) ∧
      (mainFull environ svc args).appReqs = 0 ∧
      exitCode (mainFull environ svc args).outcome = some 1) ∧
    (∀ (environ : List String) (svc : String → Store) (args : List String) (e : String)
        (ps : List Parameter),
      osGetenv environ "APP_NAME" ≠ "" →
      (fetchScope svc ("/" ++ resolveAppEnv environ ++ "/")
        (resolveAppEnv environ != "")).result = Except.ok ps →
      (getParameters
        (svc ("/" ++ resolveAppEnv environ ++ "/" ++ osGetenv environ "APP_NAME" ++ "/"))
        none [] 0 0 0).result = .error e →
      (mainFull environ svc args).outcome
        = .fatalAppFetch ("Error fetching app params:  " ++ e) ∧
      exitCode (mainFull environ svc args).outcome = some 1) := by
  refine ⟨?_, ?_, ?_⟩
  · intro pages e tail hps
    simpa using getParameters_error pages hps e tail none [] 0 0 0 (Or.inl rfl)
  · intro environ svc args e hEnv herr
    rw [mainFull_sharedError environ svc args e hEnv herr]
    exact ⟨rfl, rfl, rfl⟩
  · intro environ svc args e ps hName hsh herr
    have h := mainFull_appError environ svc args e ps hName hsh herr
    rw [h]
    exact ⟨rfl, rfl⟩

/-- C9, witness: a store that fails on its first shared-scope request, and
one that fails on the app-scope request after a clean shared scope. -/
theorem C9_fetch_error_aborts_witness :
    getParameters [Except.error "boom"] none [] 0 0 0 = ⟨.error "boom", 1, 1⟩ ∧
    ((mainFull ["APP_ENV=prod"] (fun _ => [.error "boom"]) ["run"]).outcome
        = .fatalSharedFetch ("Error fetching shared params:  " ++ "boom") ∧
      (mainFull ["APP_ENV=prod"] (fun _ => [.error "boom"]) ["run"]).appReqs = 0 ∧
      exitCode (mainFull ["APP_ENV=prod"] (fun _ => [.error "boom"]) ["run"]).outcome
        = some 1) ∧
    ((mainFull ["APP_ENV=prod", "APP_NAME=app"]
        (fun p => if p = "/prod/app/" then [.error "boom"] else [.ok ⟨[], none⟩])
        ["run"]).outcome = .fatalAppFetch ("Error fetching app params:  " ++ "boom") ∧
      exitCode (mainFull ["APP_ENV=prod", "APP_NAME=app"]
        (fun p => if p = "/prod/app/" then [.error "boom"] else [.ok ⟨[], none⟩])
        ["run"]).outcome = some 1) :=
  ⟨C9_fetch_error_aborts.1 [] "boom" [] (by simp),
    C9_fetch_error_aborts.2.1 ["APP_ENV=prod"] (fun _ => [.error "boom"]) ["run"] "boom"
      (by decide) (by decide),
    C9_fetch_error_aborts.2.2 ["APP_ENV=prod", "APP_NAME=app"]
      (fun p => if p = "/prod/app/" then [.error "boom"] else [.ok ⟨[], none⟩]) ["run"] "boom"
      [] (by decide) (by decide) (by decide)⟩

/-- C10: the environment seed splits each entry only at the first `=`
(a value containing `=` is stored intact), and for every environ whose
entries all contain `=` and whose names are pairwise distinct, seeding
and then flattening reproduces exactly the original entries up to
ordering. -/
theorem C10_env_roundtrip :
    (∀ (n v : List Char), '=' ∉ n →
      parseEnvEntry (String.mk (n ++ '=' :: v)) = (String.mk n, String.mk v)) ∧
    (∀ environ : List String,
      (∀ e ∈ environ, (splitEq e.data).isSome = true) →
      (environ.map (fun e => (parseEnvEntry e).1)).Nodup →
      (StringArray (getOSEnv environ)).Perm environ) := by
  constructor
  · intro n v h
    unfold parseEnvEntry
    have hdata : (String.mk (n ++ '=' :: v)).data = n ++ '=' :: v := rfl
    rw [hdata, splitEq_of_append n v h]
  · intro environ hsplit hnodup
    rw [StringArray_getOSEnv environ hsplit hnodup]

/-- C10, witness: the entry `A=b=c` parses to name `A` and value `b=c`,
and the environ `[A=b=c, B=2]` round-trips through seed and flatten. -/
theorem C10_env_roundtrip_witness :
    parseEnvEntry (String.mk (['A'] ++ '=' :: ['b', '=', 'c']))
      = (String.mk ['A'], String.mk ['b', '=', 'c']) ∧
    (StringArray (getOSEnv ["A=b=c", "B=2"])).Perm ["A=b=c", "B=2"] :=
  ⟨C10_env_roundtrip.1 ['A'] ['b', '=', 'c'] (by decide),
    C10_env_roundtrip.2 ["A=b=c", "B=2"] (by decide) (by decide)⟩

end SSMLoader
